import Mathlib

/-!
Verification development for the document-retrieval pipeline of the
`python-law` repository.  The Python source under `app/` is shallowly
embedded: pure functions become Lean functions, the in-memory stores become
explicit association lists (Python `dict`s preserve insertion order and have
unique keys), Python floats are idealised as exact numbers (`ℚ` for the
executable pipeline layer, `ℝ` where the code takes a square root), and
fallible operations return their Python result value with an `Option`
argument standing for a collaborator call that may raise.
-/

namespace PythonLaw

/-! ## Text chunking — `app/utils/text_processors.py` (`TextChunker`)

Text is modelled as `List Char`.  `pyStrip` is Python's `str.strip()`
(whitespace removed from both ends). -/

abbrev Text := List Char

def pyStrip (t : Text) : Text :=
  ((t.dropWhile Char.isWhitespace).reverse.dropWhile Char.isWhitespace).reverse

/-- Characters that end a sentence in `_split_into_sentences`
(the lookbehind class `[.!?]` of `re.split(r'(?<=[.!?])\s+', text)`). -/
def isSentenceEnd (c : Char) : Bool := c = '.' || c = '!' || c = '?'

/-- Pieces of `re.split(r'(?<=[.!?])\s+', text)`.  `acc` holds the current
piece reversed, so `acc.head?` is the character immediately before the one
being examined — the regex lookbehind.  The regex consumes a whole
whitespace run; here only the first whitespace character is consumed and the
rest stays as leading whitespace of the next piece, which the `strip` in
`splitIntoSentences` removes, so the stripped, non-empty pieces agree with
the source's. -/
def splitSentencesRaw : Text → Text → List Text
  | [], acc => [acc.reverse]
  | c :: rest, acc =>
    if c.isWhitespace && (match acc with | p :: _ => isSentenceEnd p | [] => false) then
      acc.reverse :: splitSentencesRaw rest []
    else
      splitSentencesRaw rest (c :: acc)

/-- `TextChunker._split_into_sentences`:
`[s.strip() for s in sentences if s.strip()]`. -/
def splitIntoSentences (t : Text) : List Text :=
  ((splitSentencesRaw t []).map pyStrip).filter (fun s => !s.isEmpty)

/-- `TextChunker._get_overlap_text`: the whole text when it is no longer
than `overlap`, otherwise its trailing `overlap` characters. -/
def getOverlapText (overlap : Nat) (t : Text) : Text :=
  if t.length ≤ overlap then t else t.drop (t.length - overlap)

/-- The accumulation loop of `TextChunker.chunk_text`, returning the emitted
buffers *before* the `.strip()` that `_create_chunk` applies.  `cur` is
`current_chunk`.  Mirrors:
sentences are appended with a trailing space; when `len(current_chunk +
sentence) > chunk_size` and the buffer is non-empty, the buffer is emitted
and the next buffer starts as `overlap_text + sentence`; a final buffer is
emitted when its stripped form is non-empty. -/
def chunkBuffers (chunkSize overlap : Nat) : List Text → Text → List Text
  | [], cur => if !(pyStrip cur).isEmpty then [cur] else []
  | s :: ss, cur =>
    if cur.length + s.length > chunkSize && !cur.isEmpty then
      cur :: chunkBuffers chunkSize overlap ss (getOverlapText overlap cur ++ s)
    else
      chunkBuffers chunkSize overlap ss (cur ++ s ++ [' '])

/-- Python `str.split()` with no argument: whitespace-separated words. -/
def pyWords : Text → List Text
  | [] => []
  | c :: rest =>
    if c.isWhitespace then pyWords rest
    else
      (c :: rest.takeWhile (fun d => !d.isWhitespace)) ::
        pyWords (rest.dropWhile (fun d => !d.isWhitespace))
  termination_by t => t.length
  decreasing_by
    all_goals simp_wf
    all_goals exact Nat.lt_succ_of_le (List.dropWhile_sublist _).length_le

/-- A chunk record as produced by `TextChunker._create_chunk`: the stored
`content` is the buffer stripped, while `char_count`/`word_count` are taken
from the unstripped buffer. -/
structure TChunk where
  chunk_id : String
  document_id : String
  content : Text
  chunk_index : Nat
  char_count : Nat
  word_count : Nat
  deriving DecidableEq, Repr

def mkTChunk (docId : String) (idx : Nat) (buffer : Text) : TChunk :=
  { chunk_id := docId ++ "_chunk_" ++ toString idx
    document_id := docId
    content := pyStrip buffer
    chunk_index := idx
    char_count := buffer.length
    word_count := (pyWords buffer).length }

/-- `TextChunker.chunk_text`. -/
def chunk_text (chunkSize overlap : Nat) (t : Text) (docId : String) : List TChunk :=
  if t.isEmpty then []
  else
    (chunkBuffers chunkSize overlap (splitIntoSentences t) []).enum.map
      (fun p => mkTChunk docId p.1 p.2)

/-! ## Vector store — `app/services/vector_store_memory.py` (`MemoryVectorStore`)

The four `dict`s of the store become association lists (`dict`s preserve
insertion order; keys are unique).  `add_document_chunks` receives the value
of `embedding_service.encode_batch` as an `Option`: `none` stands for the
call raising (its only failure mode), `some embs` for the returned vectors.
The wall-clock reading `datetime.now().isoformat()` is passed in as `now`. -/

/-- `DocumentChunk` (app/models/document.py), the fields the store reads. -/
structure DChunk where
  chunk_id : String
  document_id : String
  content : Text
  chunk_index : Nat
  page_number : Option Nat := none
  deriving DecidableEq, Repr

/-- Per-chunk metadata dict built in `add_document_chunks`.  Optional fields
model keys that are only present under the corresponding source condition. -/
structure ChunkMeta where
  document_id : String
  chunk_index : Nat
  char_count : Nat
  word_count : Nat
  created_at : String
  page_number : Option Nat
  original_filename : Option String
  document_type : Option String
  upload_timestamp : Option String
  deriving DecidableEq, Repr

/-- The `document_metadata` argument of `add_document_chunks`. -/
structure DocMeta where
  original_filename : String
  document_type : String
  upload_timestamp : String
  deriving DecidableEq, Repr

structure VStore (α : Type) where
  embeddings : List (String × List α)
  documents : List (String × Text)
  metadatas : List (String × ChunkMeta)
  document_index : List (String × List String)
  deriving DecidableEq

/-- Python `d[k] = v` on an insertion-ordered dict: replace the value at an
existing key in place, otherwise append the new binding at the end. -/
def assocUpdate (k : String) (v : β) : List (String × β) → List (String × β)
  | [] => [(k, v)]
  | (k', v') :: rest =>
    if k' = k then (k, v) :: rest else (k', v') :: assocUpdate k v rest

def mkChunkMeta (c : DChunk) (docMeta : Option DocMeta) (now : String) : ChunkMeta :=
  { document_id := c.document_id
    chunk_index := c.chunk_index
    char_count := c.content.length
    word_count := (pyWords c.content).length
    created_at := now
    -- `if hasattr(chunk, 'page_number') and chunk.page_number:` — page 0 is falsy
    page_number := c.page_number.bind (fun n => if n = 0 then none else some n)
    original_filename := docMeta.map (·.original_filename)
    document_type := docMeta.map (·.document_type)
    upload_timestamp := docMeta.map (·.upload_timestamp) }

/-- One iteration of the storage loop in `add_document_chunks`: write the
embedding, text and metadata under `chunk_id`, then append `chunk_id` to the
document's entry in the secondary index (creating it when absent). -/
def insertChunk (c : DChunk) (e : List α) (docMeta : Option DocMeta) (now : String)
    (s : VStore α) : VStore α :=
  { embeddings := assocUpdate c.chunk_id e s.embeddings
    documents := assocUpdate c.chunk_id c.content s.documents
    metadatas := assocUpdate c.chunk_id (mkChunkMeta c docMeta now) s.metadatas
    document_index :=
      assocUpdate c.document_id
        (((s.document_index.lookup c.document_id).getD []) ++ [c.chunk_id])
        s.document_index }

/-- The `for i, chunk in enumerate(chunks)` loop.  `embeddings[i]` raises
`IndexError` when the provider returned fewer vectors than chunks; the outer
`except` then yields `False` with the store as mutated so far. -/
def addChunksLoop (embs : List (List α)) (docMeta : Option DocMeta) (now : String) :
    Nat → List DChunk → VStore α → Bool × VStore α
  | _, [], s => (true, s)
  | i, c :: cs, s =>
    match embs.get? i with
    | none => (false, s)
    | some e => addChunksLoop embs docMeta now (i + 1) cs (insertChunk c e docMeta now s)

/-- `MemoryVectorStore.add_document_chunks`. -/
def add_document_chunks (chunks : List DChunk) (embRes : Option (List (List α)))
    (docMeta : Option DocMeta) (now : String) (s : VStore α) : Bool × VStore α :=
  if chunks.isEmpty then (false, s)
  else
    match embRes with
    | none => (false, s)
    | some embs => addChunksLoop embs docMeta now 0 chunks s

/-- Candidate chunk ids in `search_similar_chunks`: `if document_ids:` is
Python truthiness, so both `None` and `[]` fall through to all keys of
`embeddings`; otherwise the concatenation of the secondary-index entries of
the listed documents (missing documents contribute nothing). -/
def candidateIds (s : VStore α) (ids : Option (List String)) : List String :=
  match ids with
  | none => s.embeddings.map Prod.fst
  | some l =>
    if l.isEmpty then s.embeddings.map Prod.fst
    else l.flatMap (fun d => (s.document_index.lookup d).getD [])

/-- The `similarities` list: for each candidate id still present in
`embeddings`, pair it with its similarity to the query embedding. -/
def similarityList (sim : List α → List α → α) (s : VStore α) (qe : List α)
    (cands : List String) : List (String × α) :=
  cands.filterMap (fun id => (s.embeddings.lookup id).map (fun e => (id, sim qe e)))

structure SearchResult (α : Type) where
  content : Text
  metadata : ChunkMeta
  similarity_score : α
  distance : α
  rank : Nat
  debug : Option (Nat × α × Text) := none
  deriving DecidableEq

/-- Result formatting in `search_similar_chunks`: looks up
`self.documents[chunk_id]` and `self.metadatas[chunk_id]`; a missing key
raises `KeyError`, caught by the surrounding `except` which returns `[]` —
modelled by `none`.  `i` is the running `enumerate` index, so `rank = i+1`
and `distance = 1 - similarity`. -/
def formatResults [LinearOrderedField α] (s : VStore α) :
    List (String × α) → Nat → Option (List (SearchResult α))
  | [], _ => some []
  | (id, sc) :: rest, i =>
    match s.documents.lookup id, s.metadatas.lookup id with
    | some txt, some m =>
      (formatResults s rest (i + 1)).map
        (fun rs => { content := txt, metadata := m, similarity_score := sc,
                     distance := 1 - sc, rank := i + 1 } :: rs)
    | _, _ => none

/-- `MemoryVectorStore.search_similar_chunks`.  `qeOpt = none` stands for
`encode_text` raising (caught: the whole search returns `[]`).  Python's
stable descending `sort` is modelled by `List.insertionSort` with
"greater-or-equal score", which produces the same stable order. -/
def search_similar_chunks [LinearOrderedField α] (sim : List α → List α → α)
    (s : VStore α) (qeOpt : Option (List α)) (nResults : Nat)
    (ids : Option (List String)) : List (SearchResult α) :=
  if s.embeddings.isEmpty then []
  else
    match qeOpt with
    | none => []
    | some qe =>
      let cands := candidateIds s ids
      if cands.isEmpty then []
      else
        let sorted := (similarityList sim s qe cands).insertionSort
          (fun x y => y.2 ≤ x.2)
        match formatResults s (sorted.take nResults) 0 with
        | some rs => rs
        | none => []

/-- The fields of `get_collection_stats` that depend on the store state. -/
structure CollectionStats where
  total_chunks : Nat
  document_types : List (String × Nat)
  document_sources : List String
  deriving DecidableEq, Repr

/-- `MemoryVectorStore.get_collection_stats`. -/
def get_collection_stats (s : VStore α) : CollectionStats :=
  let tally : List (String × Nat) → String → List (String × Nat) :=
    fun acc k => assocUpdate k ((acc.lookup k).getD 0 + 1) acc
  let docTypes := s.metadatas.foldl
    (fun acc p => tally acc (p.2.document_type.getD "unknown")) []
  let docSources := s.metadatas.foldl
    (fun acc p => tally acc (p.2.original_filename.getD "unknown")) []
  { total_chunks := s.embeddings.length
    document_types := docTypes
    document_sources := (docSources.map Prod.fst).take 10 }

/-- `MemoryVectorStore.delete_document_chunks`: absent key → `False`,
otherwise pop every listed chunk id from the three primary maps (`dict.pop`
on unique keys removes exactly the entries whose key is listed), delete the
secondary-index entry, and return `True`. -/
def delete_document_chunks (s : VStore α) (docId : String) : Bool × VStore α :=
  match s.document_index.lookup docId with
  | none => (false, s)
  | some chunkIds =>
    (true,
      { embeddings := s.embeddings.filter (fun p => decide (p.1 ∉ chunkIds))
        documents := s.documents.filter (fun p => decide (p.1 ∉ chunkIds))
        metadatas := s.metadatas.filter (fun p => decide (p.1 ∉ chunkIds))
        document_index := s.document_index.filter (fun p => decide (p.1 ≠ docId)) })

/-! ## Retrieval coordinator — `app/services/retrieval_service.py` -/

/-- The document scope passed on to the vector search: `if not document_ids:`
treats `None` and `[]` alike, and the fallback block that consults
`self.vector_store.collection` always raises `AttributeError` (caught),
leaving the scope as `None`. -/
def truthyIds (ids : Option (List String)) : Option (List String) :=
  match ids with
  | some l => if l.isEmpty then none else some l
  | none => none

/-- `RetrievalService.retrieve_relevant_chunks`.  The zero-chunk guard reads
`total_chunks` from `get_collection_stats`.  The final loop writes
`debug_info` (rank, original similarity, 100-character preview) without
touching the top-level fields. -/
def retrieve_relevant_chunks [LinearOrderedField α] (sim : List α → List α → α)
    (s : VStore α) (qeOpt : Option (List α)) (document_ids : Option (List String))
    (top_k : Nat) (min_similarity : α) : List (SearchResult α) :=
  if (get_collection_stats s).total_chunks = 0 then []
  else
    let sims := search_similar_chunks sim s qeOpt (min (top_k * 2) 20) (truthyIds document_ids)
    if sims.isEmpty then []
    else
      let filtered := sims.filter (fun c => min_similarity ≤ c.similarity_score)
      let final := filtered.take top_k
      final.enum.map (fun p =>
        { p.2 with debug := some (p.1 + 1, p.2.similarity_score, p.2.content.take 100 ++ "...".data) })

/-! ## Cosine similarity — `MemoryVectorStore._dot_product_similarity`

The float arithmetic is idealised over `ℝ` (`** 0.5` on a non-negative
float is its square root). -/

def dotProduct (v w : List ℝ) : ℝ := (List.zipWith (· * ·) v w).sum

noncomputable def magnitude (v : List ℝ) : ℝ :=
  Real.sqrt ((v.map (fun a => a * a)).sum)

noncomputable def dotProductSimilarity (v w : List ℝ) : ℝ :=
  if v.length = w.length then
    if magnitude v = 0 ∨ magnitude w = 0 then 0
    else dotProduct v w / (magnitude v * magnitude w)
  else 0

/-! ## Document registry — `app/models/document.py`, `app/services/document_service.py` -/

inductive DocStatus
  | uploading | processing | ready | error
  deriving DecidableEq, Repr

structure DocumentMetadata where
  filename : String
  original_filename : String
  file_size : Nat
  document_type : String
  upload_timestamp : String
  processing_timestamp : Option String := none
  page_count : Option Nat := none
  word_count : Option Nat := none
  deriving DecidableEq, Repr

structure Document where
  document_id : String
  status : DocStatus
  metadata : DocumentMetadata
  chunks : List DChunk := []
  error_message : Option String := none
  deriving DecidableEq, Repr

def get_document (reg : List (String × Document)) (id : String) : Option Document :=
  reg.lookup id

def get_all_documents (reg : List (String × Document)) : List Document :=
  reg.map Prod.snd

def get_ready_documents (reg : List (String × Document)) : List Document :=
  (reg.map Prod.snd).filter (fun d => decide (d.status = DocStatus.ready))

/-- Outcome of the vector-store indexing step inside
`upload_and_process_document`: `add_document_chunks` returned `True`,
returned `False`, or raised (the caught `vector_error`). -/
inductive IndexingOutcome
  | succeeded
  | returnedFalse
  | raised (msg : String)
  deriving DecidableEq, Repr

/-- The indexing block of `DocumentService.upload_and_process_document`
(lines 115–146): on `True` the document becomes READY; on `False` it
*also* becomes READY and `error_message` is left untouched; only when the
call raises is `error_message` set to the warning string. -/
def applyIndexing (doc : Document) : IndexingOutcome → Document
  | .succeeded => { doc with status := .ready }
  | .returnedFalse => { doc with status := .ready }
  | .raised msg =>
    { doc with status := .ready,
               error_message := some ("Vector store warning: " ++ msg) }

/-- End of the upload pipeline: the document (already stored under its id at
line 84) is mutated in place by the indexing block, so the registry ends up
holding the updated document. -/
def finishUpload (reg : List (String × Document)) (doc : Document)
    (o : IndexingOutcome) : List (String × Document) :=
  assocUpdate doc.document_id (applyIndexing doc o) reg

/-! ## Session registry — `app/services/chat_service.py` -/

/-- Filename keywords of `ChatService._is_legal_document`. -/
def legalFilenameKeywords : List String :=
  ["act", "law", "legal", "statute", "regulation", "code", "constitution",
   "judgment", "case", "court", "supreme", "high court", "tribunal",
   "ipc", "crpc", "cpc", "evidence", "contract", "agreement", "petition",
   "bail", "appeal", "writ", "divorce", "property", "criminal", "civil"]

/-- Content keywords of `ChatService._is_legal_document`. -/
def legalContentKeywords : List String :=
  ["section", "article", "clause", "sub-section", "paragraph",
   "supreme court", "high court", "district court", "magistrate",
   "indian penal code", "constitution of india", "civil procedure",
   "criminal procedure", "evidence act", "contract act",
   "plaintiff", "defendant", "petitioner", "respondent",
   "judgment", "order", "decree", "injunction", "mandamus",
   "habeas corpus", "certiorari", "prohibition", "quo warranto",
   "bail", "anticipatory bail", "fir", "chargesheet", "appeal",
   "revision", "review", "criminal", "civil", "family", "property"]

/-- Python `str.lower()` (ASCII range — the keywords are ASCII). -/
def lowerText (s : String) : Text := s.data.map Char.toLower

/-- Python's substring test `needle in hay`. -/
def isInfixOfText : Text → Text → Bool
  | n, [] => n.isEmpty
  | n, c :: rest => n.isPrefixOf (c :: rest) || isInfixOfText n rest

/-- `ChatService._is_legal_document`: sample the first three chunks' contents
joined with spaces; a document is legal when its lowercased filename contains
a filename keyword or the lowercased sample contains a content keyword. -/
def isLegalDocument (d : Document) : Bool :=
  let sample : Text := List.intercalate [' '] ((d.chunks.take 3).map (·.content))
  let filenameL := lowerText d.metadata.original_filename
  let sampleL := sample.map Char.toLower
  legalFilenameKeywords.any (fun kw => isInfixOfText kw.data filenameL) ||
  legalContentKeywords.any (fun kw => isInfixOfText kw.data sampleL)

/-- Per-document display snapshot stored in `document_context`. -/
structure DocCtx where
  filename : String
  upload_time : String
  word_count : Option Nat
  chunk_count : Nat
  deriving DecidableEq, Repr

structure ChatSession where
  session_id : String
  created_at : String
  last_activity : String
  message_count : Nat
  messages : List (String × String)
  active_document_ids : List String
  session_name : Option String
  document_context : List (String × DocCtx)
  deriving DecidableEq, Repr

/-- The `if session_id and session_id in self.sessions:` test of
`_get_or_create_session` as a lookup: an existing session is returned only
for a truthy (non-empty) id that is a key of the session map. -/
def sessionLookup (sessions : List (String × ChatSession))
    (sessionId : Option String) : Option ChatSession :=
  match sessionId with
  | some sid => if sid = "" then none else sessions.lookup sid
  | none => none

/-- `ChatService._get_or_create_session`.  `freshId` stands for the
`str(uuid.uuid4())` drawn when no usable id was supplied, `now` for
`datetime.now()`; the empty string is falsy, so it never matches an existing
session and is replaced by the fresh id. -/
def getOrCreateSession (sessions : List (String × ChatSession))
    (docs : List (String × Document)) (sessionId : Option String)
    (freshId now : String) : ChatSession × List (String × ChatSession) :=
  match sessionLookup sessions sessionId with
  | some s => (s, sessions)
  | none =>
    let newId := match sessionId with
      | some sid => if sid = "" then freshId else sid
      | none => freshId
    let legalDocs := (get_ready_documents docs).filter isLegalDocument
    let newSession : ChatSession :=
      { session_id := newId
        created_at := now
        last_activity := now
        message_count := 0
        messages := []
        active_document_ids := legalDocs.map (·.document_id)
        session_name := some "New Legal Chat"
        document_context := legalDocs.map (fun d =>
          (d.document_id,
            { filename := d.metadata.original_filename
              upload_time := d.metadata.upload_timestamp
              word_count := d.metadata.word_count
              chunk_count := d.chunks.length })) }
    (newSession, assocUpdate newId newSession sessions)

/-! ## Helper lemmas about association lists -/

lemma lookup_assocUpdate_self (k : String) (v : β) :
    ∀ l : List (String × β), (assocUpdate k v l).lookup k = some v := by
  intro l
  induction l with
  | nil => simp [assocUpdate]
  | cons p rest ih =>
    obtain ⟨k', v'⟩ := p
    by_cases h : k' = k
    · subst h; simp [assocUpdate]
    · simp only [assocUpdate, if_neg h, List.lookup]
      have : (k == k') = false := by
        simp [beq_iff_eq]; exact fun e => h e.symm
      simp [this, ih]

lemma mem_of_lookup_eq_some {l : List (String × β)} {k : String} {v : β}
    (h : l.lookup k = some v) : (k, v) ∈ l := by
  induction l with
  | nil => simp [List.lookup] at h
  | cons p rest ih =>
    obtain ⟨a, b⟩ := p
    rw [List.lookup] at h
    by_cases hk : k = a
    · rw [show (k == a) = true by simp [hk]] at h
      simp only [Option.some.injEq] at h
      subst hk; subst h
      exact List.mem_cons_self _ _
    · rw [show (k == a) = false by simp [hk]] at h
      exact List.mem_cons_of_mem _ (ih h)

lemma mem_snd_of_lookup {l : List (String × β)} {k : String} {v : β}
    (h : l.lookup k = some v) : v ∈ l.map Prod.snd :=
  List.mem_map.mpr ⟨(k, v), mem_of_lookup_eq_some h, rfl⟩

/-! ## C9 — `add_document_chunks` is atomic on failure -/

/-- C9: when the chunk list is empty or embedding generation fails
(`encode_batch` raising, modelled by `embRes = none`), `add_document_chunks`
returns `False` and leaves all four maps of the store untouched: the
embedding call happens before any map is written. -/
theorem add_document_chunks_atomic_on_failure {α : Type} (chunks : List DChunk)
    (embRes : Option (List (List α))) (docMeta : Option DocMeta) (now : String)
    (s : VStore α) (h : chunks = [] ∨ embRes = none) :
    add_document_chunks chunks embRes docMeta now s = (false, s) := by
  rcases h with h | h
  · subst h; simp [add_document_chunks]
  · subst h; cases chunks <;> simp [add_document_chunks]

theorem add_document_chunks_atomic_on_failure_witness :
    (([] : List DChunk) = [] ∨ some ([] : List (List ℚ)) = none) ∧
      add_document_chunks ([] : List DChunk) (some ([] : List (List ℚ))) none "t"
        (⟨[], [], [], []⟩ : VStore ℚ) = (false, ⟨[], [], [], []⟩) :=
  ⟨Or.inl rfl,
    add_document_chunks_atomic_on_failure _ _ _ _ _ (Or.inl rfl)⟩

/-! ## C2 — no dimension check on upsert -/

lemma addChunksLoop_fst_iff {α : Type} (embs : List (List α))
    (docMeta : Option DocMeta) (now : String) :
    ∀ (cs : List DChunk) (i : Nat) (s : VStore α),
      (addChunksLoop embs docMeta now i cs s).1 = true ↔
        (cs = [] ∨ i + cs.length ≤ embs.length) := by
  intro cs
  induction cs with
  | nil =>
    intro i s
    simp [addChunksLoop]
  | cons c cs ih =>
    intro i s
    simp only [addChunksLoop]
    cases h : embs.get? i with
    | none =>
      have hlen : embs.length ≤ i := List.get?_eq_none.mp h
      simp only [List.length_cons]
      constructor
      · intro hfalse; exact absurd hfalse (by simp)
      · intro hle
        rcases hle with hle | hle
        · exact absurd hle (by simp)
        · omega
    | some e =>
      have hlt : i < embs.length := by
        by_contra hge
        push_neg at hge
        rw [List.get?_eq_none.mpr hge] at h
        cases h
      rw [ih (i + 1) (insertChunk c e docMeta now s)]
      simp only [List.length_cons]
      constructor
      · intro hcase
        rcases hcase with rfl | hle
        · right; simpa using hlt
        · right; omega
      · intro hcase
        rcases hcase with hcs | hle
        · exact absurd hcs (by simp)
        · rcases Nat.eq_zero_or_pos cs.length with hz | hp
          · left; exact List.length_eq_zero.mp hz
          · right; omega

/-- C2 (counterexample): a store whose only embedding has dimension 2
accepts an upsert whose embedding has dimension 3 — the batch is *not*
rejected (`add_document_chunks` returns `True`) and the store ends up
holding vectors of two different lengths. -/
theorem add_mismatched_dimension_accepted_cx :
    (add_document_chunks
        [{ chunk_id := "c1", document_id := "d2", content := "x".data,
           chunk_index := 0 : DChunk }]
        (some [[1, 0, 0]]) none "t"
        (⟨[("c0", [1, 0])], [], [], [("d1", ["c0"])]⟩ : VStore ℚ)).1 = true ∧
      ((add_document_chunks
        [{ chunk_id := "c1", document_id := "d2", content := "x".data,
           chunk_index := 0 : DChunk }]
        (some [[1, 0, 0]]) none "t"
        (⟨[("c0", [1, 0])], [], [], [("d1", ["c0"])]⟩ : VStore ℚ)).2.embeddings.map
          (fun p => p.2.length)) = [2, 3] := by
  constructor <;> rfl

/-- C2 (amended): `add_document_chunks` performs no dimension validation at
all: it succeeds exactly when the chunk list is non-empty and the embedding
call returned at least one vector per chunk, regardless of the vectors'
lengths — so one index instance may hold vectors of differing dimensions
(mismatches are instead neutralised at search time with score 0, cf. C10). -/
theorem add_document_chunks_success_independent_of_dimension {α : Type}
    (chunks : List DChunk) (embRes : Option (List (List α)))
    (docMeta : Option DocMeta) (now : String) (s : VStore α) :
    (add_document_chunks chunks embRes docMeta now s).1 = true ↔
      (chunks ≠ [] ∧ ∃ embs, embRes = some embs ∧ chunks.length ≤ embs.length) := by
  unfold add_document_chunks
  cases chunks with
  | nil => simp
  | cons c cs =>
    cases embRes with
    | none => simp
    | some embs =>
      simp only [List.isEmpty_cons, Bool.false_eq_true, if_false]
      rw [addChunksLoop_fst_iff]
      constructor
      · intro hcase
        rcases hcase with hnil | hle
        · exact absurd hnil (by simp)
        · exact ⟨by simp, embs, rfl, by simpa using hle⟩
      · rintro ⟨-, embs', heq, hle⟩
        cases heq
        right
        simpa using hle

/-! ## C1 — documents whose indexing step fails still become READY -/

/-- C1 (counterexample): when `add_document_chunks` returns `False` (its
normal failure mode — every internal error is caught and turned into
`False`), the document still becomes READY but `error_message` stays `None`,
contradicting the claim that every indexing failure leaves a non-empty
warning in `error_message`. -/
theorem upload_returnedFalse_no_warning_cx :
    get_document
        (finishUpload
          [("d1",
            { document_id := "d1", status := .processing,
              metadata := { filename := "f.pdf", original_filename := "contract.pdf",
                            file_size := 1, document_type := "pdf",
                            upload_timestamp := "t" } : Document })]
          { document_id := "d1", status := .processing,
            metadata := { filename := "f.pdf", original_filename := "contract.pdf",
                          file_size := 1, document_type := "pdf",
                          upload_timestamp := "t" } : Document }
          .returnedFalse) "d1" =
      some { document_id := "d1", status := .ready,
             metadata := { filename := "f.pdf", original_filename := "contract.pdf",
                           file_size := 1, document_type := "pdf",
                           upload_timestamp := "t" },
             error_message := none } := by
  rfl

/-- C1 (amended): after any failed indexing step the document's status is
READY and it stays retrievable by `get_document` and listed by
`get_all_documents`; but `error_message` is only set (to the non-empty
string `"Vector store warning: ..."`) when `add_document_chunks` *raises* —
when it merely returns `False`, `error_message` is left unchanged. -/
theorem upload_indexing_failure_ready (reg : List (String × Document))
    (doc : Document) (o : IndexingOutcome) (h : o ≠ .succeeded) :
    (applyIndexing doc o).status = .ready ∧
      (∀ msg, o = .raised msg →
        (applyIndexing doc o).error_message = some ("Vector store warning: " ++ msg) ∧
          ∀ msg', (applyIndexing doc o).error_message = some msg' → msg' ≠ "") ∧
      (o = .returnedFalse → (applyIndexing doc o).error_message = doc.error_message) ∧
      get_document (finishUpload reg doc o) doc.document_id = some (applyIndexing doc o) ∧
      (applyIndexing doc o) ∈ get_all_documents (finishUpload reg doc o) := by
  refine ⟨?_, ?_, ?_, ?_, ?_⟩
  · cases o <;> rfl
  · rintro msg rfl
    refine ⟨rfl, ?_⟩
    intro msg' hmsg
    simp only [applyIndexing, Option.some.injEq] at hmsg
    intro hempty
    rw [hempty] at hmsg
    have hlen := congrArg String.length hmsg
    simp [String.length_append] at hlen
    exact absurd hlen.1 (by decide)
  · rintro rfl; rfl
  · exact lookup_assocUpdate_self _ _ _
  · exact mem_snd_of_lookup (lookup_assocUpdate_self _ _ _)

theorem upload_indexing_failure_ready_witness :
    (IndexingOutcome.raised "boom" ≠ .succeeded) ∧
      (applyIndexing
        { document_id := "d1", status := .processing,
          metadata := { filename := "f.pdf", original_filename := "contract.pdf",
                        file_size := 1, document_type := "pdf",
                        upload_timestamp := "t" } : Document }
        (.raised "boom")).status = .ready :=
  ⟨by decide,
    (upload_indexing_failure_ready []
      { document_id := "d1", status := .processing,
        metadata := { filename := "f.pdf", original_filename := "contract.pdf",
                      file_size := 1, document_type := "pdf",
                      upload_timestamp := "t" } }
      (.raised "boom") (by decide)).1⟩

/-! ## C7 — cosine similarity, and C10 — dimension mismatch scores 0 -/

lemma eq_zero_of_mem_of_sum_eq_zero {l : List ℝ} (hn : ∀ x ∈ l, 0 ≤ x)
    (hs : l.sum = 0) : ∀ x ∈ l, x = 0 := by
  induction l with
  | nil => simp
  | cons a rest ih =>
    rw [List.sum_cons] at hs
    have ha : 0 ≤ a := hn a (List.mem_cons_self _ _)
    have hrest : 0 ≤ rest.sum := List.sum_nonneg (fun x hx => hn x (List.mem_cons_of_mem _ hx))
    have ha0 : a = 0 := by linarith
    have hs0 : rest.sum = 0 := by linarith
    intro x hx
    rcases List.mem_cons.mp hx with rfl | hx
    · exact ha0
    · exact ih (fun y hy => hn y (List.mem_cons_of_mem _ hy)) hs0 x hx

lemma all_zero_of_magnitude_zero {v : List ℝ} (h : magnitude v = 0) :
    ∀ a ∈ v, a = 0 := by
  have hnn : ∀ x ∈ v.map (fun a => a * a), 0 ≤ x := by
    intro x hx
    obtain ⟨a, -, rfl⟩ := List.mem_map.mp hx
    exact mul_self_nonneg a
  have hsum0 : (v.map (fun a => a * a)).sum = 0 := by
    have hle : (v.map (fun a => a * a)).sum ≤ 0 :=
      Real.sqrt_eq_zero'.mp h
    exact le_antisymm hle (List.sum_nonneg hnn)
  intro a ha
  have : a * a = 0 :=
    eq_zero_of_mem_of_sum_eq_zero hnn hsum0 (a * a) (List.mem_map.mpr ⟨a, ha, rfl⟩)
  exact mul_self_eq_zero.mp this

lemma dotProduct_eq_zero_left {v : List ℝ} (h : ∀ a ∈ v, a = 0) :
    ∀ w, dotProduct v w = 0 := by
  induction v with
  | nil => intro w; simp [dotProduct]
  | cons a rest ih =>
    intro w
    cases w with
    | nil => simp [dotProduct]
    | cons b rest' =>
      have ha : a = 0 := h a (List.mem_cons_self _ _)
      have := ih (fun x hx => h x (List.mem_cons_of_mem _ hx)) rest'
      simp only [dotProduct, List.zipWith_cons_cons, List.sum_cons] at *
      rw [ha, zero_mul, this, add_zero]

lemma dotProduct_eq_zero_right {w : List ℝ} (h : ∀ b ∈ w, b = 0) :
    ∀ v, dotProduct v w = 0 := by
  induction w with
  | nil => intro v; simp [dotProduct]
  | cons b rest ih =>
    intro v
    cases v with
    | nil => simp [dotProduct]
    | cons a rest' =>
      have hb : b = 0 := h b (List.mem_cons_self _ _)
      have := ih (fun x hx => h x (List.mem_cons_of_mem _ hx)) rest'
      simp only [dotProduct, List.zipWith_cons_cons, List.sum_cons] at *
      rw [hb, mul_zero, this, add_zero]

/-- C7: for equal-length vectors the score of `_dot_product_similarity` is
the dot product divided by the product of the Euclidean norms (`magnitude`
is `sqrt` of the sum of squares, i.e. the Euclidean norm) — the zero-guard
never changes the value because a zero-magnitude vector makes the dot
product zero — and the score is exactly 0 when either magnitude is zero. -/
theorem dot_product_similarity_cosine (v w : List ℝ) (h : v.length = w.length) :
    dotProductSimilarity v w = dotProduct v w / (magnitude v * magnitude w) ∧
      ((magnitude v = 0 ∨ magnitude w = 0) → dotProductSimilarity v w = 0) := by
  constructor
  · unfold dotProductSimilarity
    rw [if_pos h]
    by_cases hz : magnitude v = 0 ∨ magnitude w = 0
    · rw [if_pos hz]
      rcases hz with hz | hz
      · rw [dotProduct_eq_zero_left (all_zero_of_magnitude_zero hz) w, zero_div]
      · rw [dotProduct_eq_zero_right (all_zero_of_magnitude_zero hz) v, zero_div]
    · rw [if_neg hz]
  · intro hz
    unfold dotProductSimilarity
    rw [if_pos h, if_pos hz]

theorem dot_product_similarity_cosine_witness :
    dotProductSimilarity [(3 : ℝ), 4] [3, 4] =
      dotProduct [(3 : ℝ), 4] [3, 4] / (magnitude [(3 : ℝ), 4] * magnitude [(3 : ℝ), 4]) :=
  (dot_product_similarity_cosine [(3 : ℝ), 4] [3, 4] rfl).1

lemma dps_length_mismatch_zero {v w : List ℝ} (h : v.length ≠ w.length) :
    dotProductSimilarity v w = 0 := by
  unfold dotProductSimilarity
  rw [if_neg h]

/-- C10: similarity scoring is total over malformed vectors — a length
mismatch yields score 0.0 rather than an error, and in the scoring stage of
`search_similar_chunks` a stored chunk whose embedding length differs from
the query's is ranked with score 0 instead of failing. -/
theorem similarity_mismatched_dimension_zero :
    (∀ v w : List ℝ, v.length ≠ w.length → dotProductSimilarity v w = 0) ∧
      (∀ (s : VStore ℝ) (qe : List ℝ) (cands : List String) (p : String × ℝ),
        p ∈ similarityList dotProductSimilarity s qe cands →
        ∀ e, s.embeddings.lookup p.1 = some e → qe.length ≠ e.length → p.2 = 0) := by
  constructor
  · intro v w h
    exact dps_length_mismatch_zero h
  · intro s qe cands p hp e hlk hne
    rw [similarityList, List.mem_filterMap] at hp
    obtain ⟨id, -, hmap⟩ := hp
    cases hlk' : s.embeddings.lookup id with
    | none => rw [hlk'] at hmap; cases hmap
    | some e' =>
      rw [hlk'] at hmap
      simp only [Option.map_some', Option.some.injEq] at hmap
      subst hmap
      simp only at hlk
      rw [hlk'] at hlk
      injection hlk with he
      subst he
      exact dps_length_mismatch_zero hne

theorem similarity_mismatched_dimension_zero_witness :
    dotProductSimilarity [(1 : ℝ), 0] [1, 0, 0] = 0 :=
  similarity_mismatched_dimension_zero.2
    (⟨[("c", [1, 0, 0])], [], [], []⟩ : VStore ℝ) [1, 0] ["c"]
    ("c", dotProductSimilarity [(1 : ℝ), 0] [1, 0, 0])
    (List.mem_singleton.mpr rfl)
    [1, 0, 0] rfl (by decide)

/-! ## C3 — chunk overlap -/

lemma chunkBuffers_chain (cs ov : Nat) :
    ∀ (ss : List Text) (cur : Text),
      List.Chain' (fun a b => getOverlapText ov a <+: b) (chunkBuffers cs ov ss cur) ∧
        ∀ b ∈ (chunkBuffers cs ov ss cur).head?, cur <+: b := by
  intro ss
  induction ss with
  | nil =>
    intro cur
    constructor
    · unfold chunkBuffers
      split
      · exact List.chain'_singleton _
      · exact List.chain'_nil
    · intro b hb
      unfold chunkBuffers at hb
      split at hb
      · simp only [List.head?_cons, Option.mem_def, Option.some.injEq] at hb
        subst hb
        exact List.prefix_refl _
      · simp at hb
  | cons s ss ih =>
    intro cur
    rw [chunkBuffers]
    by_cases hc : (decide (cur.length + s.length > cs) && !cur.isEmpty) = true
    · rw [if_pos hc]
      obtain ⟨ihChain, ihHead⟩ := ih (getOverlapText ov cur ++ s)
      constructor
      · rw [List.chain'_cons']
        exact ⟨fun b hb => (List.prefix_append _ _).trans (ihHead b hb), ihChain⟩
      · intro b hb
        simp only [List.head?_cons, Option.mem_def, Option.some.injEq] at hb
        subst hb
        exact List.prefix_refl _
    · rw [if_neg hc]
      obtain ⟨ihChain, ihHead⟩ := ih (cur ++ s ++ [' '])
      refine ⟨ihChain, fun b hb => ?_⟩
      have hpre : cur <+: cur ++ s ++ [' '] := by
        rw [List.append_assoc]
        exact List.prefix_append _ _
      exact hpre.trans (ihHead b hb)

lemma enumFrom_map_content (docId : String) :
    ∀ (l : List Text) (i : Nat),
      ((l.enumFrom i).map (fun p => mkTChunk docId p.1 p.2)).map (fun c => c.content) =
        l.map pyStrip := by
  intro l
  induction l with
  | nil => intro i; rfl
  | cons b rest ih =>
    intro i
    simp only [List.enumFrom, List.map_cons, ih]
    rfl

set_option maxRecDepth 10000 in
/-- C3 (counterexample): with the default configuration (chunk_size 1000,
overlap 200), the input `'a'*899 + '. ' + 'b'*199 + '.'` produces exactly
two chunks; the first chunk's stored content is 900 characters long, yet the
second chunk does *not* begin with the 200-character suffix of the first
chunk's stored content — the overlap seed is taken from the pre-strip buffer
(which ends in the separator space), not from the stripped stored content. -/
theorem chunk_overlap_suffix_cx :
    ((chunk_text 1000 200
        (List.replicate 899 'a' ++ ['.', ' '] ++ List.replicate 199 'b' ++ ['.'])
        "doc").map (fun c => c.content) =
      [List.replicate 899 'a' ++ ['.'],
       List.replicate 198 'a' ++ ['.', ' '] ++ List.replicate 199 'b' ++ ['.']]) ∧
      200 ≤ (List.replicate 899 'a' ++ ['.'] : Text).length ∧
      (((List.replicate 899 'a' ++ ['.'] : Text).drop
            ((List.replicate 899 'a' ++ ['.'] : Text).length - 200)).isPrefixOf
          (List.replicate 198 'a' ++ ['.', ' '] ++ List.replicate 199 'b' ++ ['.'])) =
        false := by
  exact ⟨by decide, by decide, by decide⟩

/-- C3 (amended): each chunk after the first is emitted from a buffer that
begins with `getOverlapText overlap` of the buffer the preceding chunk was
emitted from — the trailing `overlap` characters of that pre-strip buffer
when it is at least `overlap` long, the whole buffer otherwise.  The stored
chunk contents are exactly these buffers whitespace-stripped, so (because an
emitted buffer carries a trailing separator space that stripping removes) a
stored chunk need not begin with the overlap-length suffix of the previous
chunk's *stored* content. -/
theorem chunk_overlap_from_buffers (chunkSize overlap : Nat) (t : Text) (docId : String) :
    List.Chain' (fun a b => getOverlapText overlap a <+: b)
        (chunkBuffers chunkSize overlap (splitIntoSentences t) []) ∧
      (chunk_text chunkSize overlap t docId).map (fun c => c.content) =
        (chunkBuffers chunkSize overlap (splitIntoSentences t) []).map pyStrip ∧
      ∀ a : Text, overlap ≤ a.length →
        getOverlapText overlap a = a.drop (a.length - overlap) := by
  refine ⟨(chunkBuffers_chain chunkSize overlap (splitIntoSentences t) []).1, ?_, ?_⟩
  · by_cases ht : t.isEmpty = true
    · have : t = [] := by cases t with | nil => rfl | cons c r => simp at ht
      subst this
      rfl
    · unfold chunk_text
      rw [if_neg ht, List.enum]
      exact enumFrom_map_content docId _ 0
  · intro a ha
    unfold getOverlapText
    by_cases hle : a.length ≤ overlap
    · have heq : a.length = overlap := le_antisymm hle ha
      rw [if_pos hle, heq, Nat.sub_self, List.drop_zero]
    · rw [if_neg hle]

/-! ## C6 — retrieval degrades to the empty list, never an error -/

lemma search_none_query_eq_nil {α : Type} [LinearOrderedField α]
    (sim : List α → List α → α) (s : VStore α) (n : Nat) (ids : Option (List String)) :
    search_similar_chunks sim s none n ids = [] := by
  unfold search_similar_chunks
  split <;> rfl

/-- C6: `retrieve_relevant_chunks` is total (the Python body is wrapped in a
catch-all `except` returning `[]`): it returns `[]` immediately when the
index holds zero chunks, when the query-embedding call fails
(`qeOpt = none`), and whenever the underlying search comes back empty for
any internal reason — no failure is distinguishable from "no results". -/
theorem retrieve_degrades_to_empty {α : Type} [LinearOrderedField α]
    (sim : List α → List α → α) (s : VStore α) (qeOpt : Option (List α))
    (ids : Option (List String)) (k : Nat) (t : α) :
    ((get_collection_stats s).total_chunks = 0 →
        retrieve_relevant_chunks sim s qeOpt ids k t = []) ∧
      (qeOpt = none → retrieve_relevant_chunks sim s qeOpt ids k t = []) ∧
      (search_similar_chunks sim s qeOpt (min (k * 2) 20) (truthyIds ids) = [] →
        retrieve_relevant_chunks sim s qeOpt ids k t = []) := by
  refine ⟨?_, ?_, ?_⟩
  · intro h
    unfold retrieve_relevant_chunks
    rw [if_pos h]
  · rintro rfl
    simp only [retrieve_relevant_chunks]
    by_cases h : (get_collection_stats s).total_chunks = 0
    · rw [if_pos h]
    · rw [if_neg h, search_none_query_eq_nil]
      simp
  · intro h
    simp only [retrieve_relevant_chunks]
    by_cases h0 : (get_collection_stats s).total_chunks = 0
    · rw [if_pos h0]
    · rw [if_neg h0, h]
      simp

theorem retrieve_degrades_to_empty_witness :
    (get_collection_stats (⟨[], [], [], []⟩ : VStore ℚ)).total_chunks = 0 ∧
      retrieve_relevant_chunks (fun _ _ => (0 : ℚ)) (⟨[], [], [], []⟩ : VStore ℚ)
        (some [1]) none 5 (3 / 10) = [] :=
  ⟨rfl,
    (retrieve_degrades_to_empty (fun _ _ => (0 : ℚ)) ⟨[], [], [], []⟩
      (some [1]) none 5 (3 / 10)).1 rfl⟩

/-! ## C8 — session auto-binding of READY, eligible documents -/

/-- C8: a get-or-create call that finds no existing session creates one
whose `active_document_ids` is exactly the ids of the documents that are
READY and pass `_is_legal_document`, in registry order; in particular, when
that filter leaves exactly one document, the list is `[its id]`. -/
theorem get_or_create_auto_binds (sessions : List (String × ChatSession))
    (docs : List (String × Document)) (sessionId : Option String)
    (freshId now : String)
    (h : sessionLookup sessions sessionId = none) :
    ((getOrCreateSession sessions docs sessionId freshId now).1.active_document_ids =
        ((get_ready_documents docs).filter isLegalDocument).map (fun d => d.document_id)) ∧
      (∀ i, i ∈ (getOrCreateSession sessions docs sessionId freshId now).1.active_document_ids ↔
        ∃ d, d ∈ docs.map Prod.snd ∧ d.document_id = i ∧ d.status = DocStatus.ready ∧
          isLegalDocument d = true) ∧
      (∀ d : Document, (docs.map Prod.snd).filter
            (fun d => decide (d.status = DocStatus.ready) && isLegalDocument d) = [d] →
        (getOrCreateSession sessions docs sessionId freshId now).1.active_document_ids =
          [d.document_id]) := by
  have hfilter : (get_ready_documents docs).filter isLegalDocument =
      (docs.map Prod.snd).filter
        (fun d => decide (d.status = DocStatus.ready) && isLegalDocument d) := by
    rw [get_ready_documents, List.filter_filter]
    exact List.filter_congr (fun d _ => by rw [Bool.and_comm])
  have hact : (getOrCreateSession sessions docs sessionId freshId now).1.active_document_ids =
      ((get_ready_documents docs).filter isLegalDocument).map (fun d => d.document_id) := by
    unfold getOrCreateSession
    rw [h]
  refine ⟨hact, ?_, ?_⟩
  · intro i
    rw [hact, hfilter]
    constructor
    · intro hi
      obtain ⟨d, hd, rfl⟩ := List.mem_map.mp hi
      obtain ⟨hdm, hcond⟩ := List.mem_filter.mp hd
      simp only [Bool.and_eq_true, decide_eq_true_eq] at hcond
      exact ⟨d, hdm, rfl, hcond.1, hcond.2⟩
    · rintro ⟨d, hdm, rfl, hready, hlegal⟩
      exact List.mem_map.mpr ⟨d, List.mem_filter.mpr ⟨hdm, by simp [hready, hlegal]⟩, rfl⟩
  · intro d hone
    rw [hact, hfilter, hone]
    rfl

theorem get_or_create_auto_binds_witness :
    sessionLookup [] (none : Option String) = none ∧
      (getOrCreateSession []
        [("doc1",
          { document_id := "doc1", status := .ready,
            metadata := { filename := "f.pdf", original_filename := "contract.pdf",
                          file_size := 1, document_type := "pdf",
                          upload_timestamp := "t" } : Document })]
        none "s1" "t").1.active_document_ids = ["doc1"] :=
  ⟨rfl,
    (get_or_create_auto_binds []
      [("doc1",
        { document_id := "doc1", status := .ready,
          metadata := { filename := "f.pdf", original_filename := "contract.pdf",
                        file_size := 1, document_type := "pdf",
                        upload_timestamp := "t" } })]
      none "s1" "t" rfl).2.2
      { document_id := "doc1", status := .ready,
        metadata := { filename := "f.pdf", original_filename := "contract.pdf",
                      file_size := 1, document_type := "pdf",
                      upload_timestamp := "t" } }
      (by decide)⟩

/-! ## C4 — the retrieval pipeline: over-fetch, threshold filter, truncate,
re-rank -/

lemma sorted_score_sort {α : Type} [LinearOrderedField α] (l : List (String × α)) :
    List.Sorted (fun x y : String × α => y.2 ≤ x.2)
      (l.insertionSort (fun x y => y.2 ≤ x.2)) := by
  haveI : IsTotal (String × α) (fun x y => y.2 ≤ x.2) :=
    ⟨fun a b => (le_total b.2 a.2).imp id id⟩
  haveI : IsTrans (String × α) (fun x y => y.2 ≤ x.2) :=
    ⟨fun _ _ _ hab hbc => le_trans hbc hab⟩
  exact List.sorted_insertionSort _ _

lemma formatResults_spec {α : Type} [LinearOrderedField α] (s : VStore α) :
    ∀ (pairs : List (String × α)) (i : Nat) (rs : List (SearchResult α)),
      formatResults s pairs i = some rs →
      rs.map (fun r => r.similarity_score) = pairs.map Prod.snd ∧
        ∀ j (hj : j < rs.length),
          (rs.get ⟨j, hj⟩).rank = i + j + 1 ∧ (rs.get ⟨j, hj⟩).debug = none := by
  intro pairs
  induction pairs with
  | nil =>
    intro i rs h
    simp only [formatResults, Option.some.injEq] at h
    subst h
    exact ⟨rfl, fun j hj => by simp at hj⟩
  | cons p rest ih =>
    intro i rs h
    obtain ⟨id, sc⟩ := p
    simp only [formatResults] at h
    cases hdoc : s.documents.lookup id with
    | none => rw [hdoc] at h; cases h
    | some txt =>
      cases hmeta : s.metadatas.lookup id with
      | none => rw [hdoc, hmeta] at h; cases h
      | some m =>
        rw [hdoc, hmeta] at h
        cases hrec : formatResults s rest (i + 1) with
        | none => rw [hrec] at h; cases h
        | some rs' =>
          rw [hrec] at h
          simp only [Option.map_some', Option.some.injEq] at h
          subst h
          obtain ⟨ihmap, ihget⟩ := ih (i + 1) rs' hrec
          refine ⟨by simp [ihmap], ?_⟩
          intro j hj
          cases j with
          | zero => exact ⟨by simp, rfl⟩
          | succ j' =>
            have hj' : j' < rs'.length := by
              simpa using Nat.lt_of_succ_lt_succ hj
            have := ihget j' hj'
            refine ⟨?_, ?_⟩
            · show (rs'.get ⟨j', hj'⟩).rank = i + (j' + 1) + 1
              rw [this.1]
              omega
            · exact this.2

lemma formatResults_metadata {α : Type} [LinearOrderedField α] (s : VStore α) :
    ∀ (pairs : List (String × α)) (i : Nat) (rs : List (SearchResult α)),
      formatResults s pairs i = some rs →
      ∀ r ∈ rs, ∃ id, s.metadatas.lookup id = some r.metadata := by
  intro pairs
  induction pairs with
  | nil =>
    intro i rs h
    simp only [formatResults, Option.some.injEq] at h
    subst h
    simp
  | cons p rest ih =>
    intro i rs h
    obtain ⟨id, sc⟩ := p
    simp only [formatResults] at h
    cases hdoc : s.documents.lookup id with
    | none => rw [hdoc] at h; cases h
    | some txt =>
      cases hmeta : s.metadatas.lookup id with
      | none => rw [hdoc, hmeta] at h; cases h
      | some m =>
        rw [hdoc, hmeta] at h
        cases hrec : formatResults s rest (i + 1) with
        | none => rw [hrec] at h; cases h
        | some rs' =>
          rw [hrec] at h
          simp only [Option.map_some', Option.some.injEq] at h
          subst h
          intro r hr
          rcases List.mem_cons.mp hr with rfl | hr
          · exact ⟨id, hmeta⟩
          · exact ih (i + 1) rs' hrec r hr

/-- The two facts C4 needs about `search_similar_chunks` output: it is
sorted by descending score and its ranks are the 1-based positions. -/
lemma search_sorted_ranks {α : Type} [LinearOrderedField α]
    (sim : List α → List α → α) (s : VStore α) (qeOpt : Option (List α))
    (n : Nat) (ids : Option (List String)) :
    List.Sorted (fun a b : SearchResult α => b.similarity_score ≤ a.similarity_score)
        (search_similar_chunks sim s qeOpt n ids) ∧
      ∀ j (hj : j < (search_similar_chunks sim s qeOpt n ids).length),
        ((search_similar_chunks sim s qeOpt n ids).get ⟨j, hj⟩).rank = j + 1 := by
  by_cases he : s.embeddings.isEmpty = true
  · have hS : search_similar_chunks sim s qeOpt n ids = [] := by
      unfold search_similar_chunks
      rw [if_pos he]
    rw [hS]
    exact ⟨List.sorted_nil, fun j hj => by simp at hj⟩
  · cases qeOpt with
    | none =>
      rw [search_none_query_eq_nil]
      exact ⟨List.sorted_nil, fun j hj => by simp at hj⟩
    | some qe =>
      by_cases hc : (candidateIds s ids).isEmpty = true
      · have hS : search_similar_chunks sim s (some qe) n ids = [] := by
          unfold search_similar_chunks
          rw [if_neg he]
          dsimp only
          rw [if_pos hc]
        rw [hS]
        exact ⟨List.sorted_nil, fun j hj => by simp at hj⟩
      · cases hfr : formatResults s
            (((similarityList sim s qe (candidateIds s ids)).insertionSort
              (fun x y => y.2 ≤ x.2)).take n) 0 with
        | none =>
          have hS : search_similar_chunks sim s (some qe) n ids = [] := by
            unfold search_similar_chunks
            rw [if_neg he]
            dsimp only
            rw [if_neg hc, hfr]
          rw [hS]
          exact ⟨List.sorted_nil, fun j hj => by simp at hj⟩
        | some rs =>
          have hS : search_similar_chunks sim s (some qe) n ids = rs := by
            unfold search_similar_chunks
            rw [if_neg he]
            dsimp only
            rw [if_neg hc, hfr]
          rw [hS]
          obtain ⟨hmap, hget⟩ := formatResults_spec s _ 0 rs hfr
          constructor
          · have hpairs : List.Sorted (fun x y : String × α => y.2 ≤ x.2)
                (((similarityList sim s qe (candidateIds s ids)).insertionSort
                  (fun x y => y.2 ≤ x.2)).take n) :=
              (sorted_score_sort _).sublist (List.take_sublist _ _)
            have hp2 : List.Pairwise (fun a b : α => b ≤ a)
                ((((similarityList sim s qe (candidateIds s ids)).insertionSort
                  (fun x y => y.2 ≤ x.2)).take n).map Prod.snd) :=
              List.pairwise_map.mpr hpairs
            rw [← hmap] at hp2
            exact List.pairwise_map.mp hp2
          · intro j hj
            simpa using (hget j hj).1

lemma filter_eq_takeWhile_score {α : Type} [LinearOrderedField α] (t : α) :
    ∀ l : List (SearchResult α),
      List.Sorted (fun a b => b.similarity_score ≤ a.similarity_score) l →
      l.filter (fun c => decide (t ≤ c.similarity_score)) =
        l.takeWhile (fun c => decide (t ≤ c.similarity_score)) := by
  intro l
  induction l with
  | nil => intro _; rfl
  | cons a l ih =>
    intro hs
    rw [List.sorted_cons] at hs
    by_cases hp : decide (t ≤ a.similarity_score) = true
    · rw [List.filter_cons, List.takeWhile_cons, if_pos hp, if_pos hp, ih hs.2]
    · have hnil : l.filter (fun c => decide (t ≤ c.similarity_score)) = [] := by
        rw [List.filter_eq_nil_iff]
        intro x hx
        simp only [decide_eq_true_eq] at hp ⊢
        intro hxt
        exact hp (le_trans hxt (hs.1 x hx))
      rw [List.filter_cons, List.takeWhile_cons, if_neg hp, if_neg hp, hnil]

lemma enumFrom_debug_map_proj {α γ : Type} [LinearOrderedField α]
    (proj : SearchResult α → γ)
    (hp : ∀ (x : SearchResult α) (d : Option (Nat × α × Text)),
      proj { x with debug := d } = proj x) :
    ∀ (l : List (SearchResult α)) (i : Nat),
      ((l.enumFrom i).map (fun p => { p.2 with
          debug := some (p.1 + 1, p.2.similarity_score, p.2.content.take 100 ++ "...".data) })).map
          proj =
        l.map proj := by
  intro l
  induction l with
  | nil => intro i; rfl
  | cons a l ih =>
    intro i
    simp only [List.enumFrom, List.map_cons, ih, hp]

/-- A minimal chunk-metadata record for concrete retrieval examples. -/
def exMeta (i : Nat) : ChunkMeta :=
  { document_id := "D", chunk_index := i, char_count := 2, word_count := 1,
    created_at := "t", page_number := none, original_filename := none,
    document_type := none, upload_timestamp := none }

/-- The concrete store of the spec's similarity-filter example: one document
with four chunks whose candidate scores are 0.9, 0.5, 0.2 and 0.1. -/
def exStoreC4 : VStore ℚ :=
  ⟨[("c1", [mkRat 9 10]), ("c2", [mkRat 5 10]),
    ("c3", [mkRat 2 10]), ("c4", [mkRat 1 10])],
   [("c1", "t1".data), ("c2", "t2".data), ("c3", "t3".data), ("c4", "t4".data)],
   [("c1", exMeta 0), ("c2", exMeta 1), ("c3", exMeta 2), ("c4", exMeta 3)],
   [("D", ["c1", "c2", "c3", "c4"])]⟩

/-- C4: against a non-empty index, `retrieve_relevant_chunks` post-processes
exactly the `min(top_k * 2, 20)` candidates requested from the vector
search: it keeps precisely those with similarity at least `min_similarity`,
truncates to `top_k`, preserves the descending score order, and both the
top-level `rank`s and the freshly written `debug_info` ranks of the final
list are `1..n`; the spec's concrete example (candidate scores
0.9/0.5/0.2/0.1, threshold 0.3, top_k 5) yields exactly the two results
0.9 and 0.5 with ranks 1 and 2. -/
theorem retrieve_pipeline_spec :
    (∀ {α : Type} [LinearOrderedField α] (sim : List α → List α → α)
        (s : VStore α) (qeOpt : Option (List α)) (ids : Option (List String))
        (k : Nat) (t : α),
      (get_collection_stats s).total_chunks ≠ 0 →
        (retrieve_relevant_chunks sim s qeOpt ids k t).map
            (fun c => (c.content, c.metadata, c.similarity_score, c.rank)) =
          (((search_similar_chunks sim s qeOpt (min (k * 2) 20) (truthyIds ids)).filter
              (fun c => t ≤ c.similarity_score)).take k).map
            (fun c => (c.content, c.metadata, c.similarity_score, c.rank)) ∧
        List.Sorted (fun a b => b.similarity_score ≤ a.similarity_score)
          (retrieve_relevant_chunks sim s qeOpt ids k t) ∧
        (∀ x ∈ retrieve_relevant_chunks sim s qeOpt ids k t, t ≤ x.similarity_score) ∧
        (retrieve_relevant_chunks sim s qeOpt ids k t).length ≤ k ∧
        (∀ j (hj : j < (retrieve_relevant_chunks sim s qeOpt ids k t).length),
          ((retrieve_relevant_chunks sim s qeOpt ids k t).get ⟨j, hj⟩).rank = j + 1 ∧
            ((retrieve_relevant_chunks sim s qeOpt ids k t).get ⟨j, hj⟩).debug =
              some (j + 1,
                ((retrieve_relevant_chunks sim s qeOpt ids k t).get ⟨j, hj⟩).similarity_score,
                ((retrieve_relevant_chunks sim s qeOpt ids k t).get
                    ⟨j, hj⟩).content.take 100 ++ "...".data))) ∧
      (retrieve_relevant_chunks (fun _ v => v.headD 0) exStoreC4
          (some []) none 5 (mkRat 3 10)).map (fun c => (c.similarity_score, c.rank)) =
        [(mkRat 9 10, 1), (mkRat 5 10, 2)] := by
  constructor
  · intro α _inst sim s qeOpt ids k t h0
    have hr : retrieve_relevant_chunks sim s qeOpt ids k t =
        (if (search_similar_chunks sim s qeOpt (min (k * 2) 20)
              (truthyIds ids)).isEmpty = true then []
          else
            (((search_similar_chunks sim s qeOpt (min (k * 2) 20)
                (truthyIds ids)).filter
                  (fun c => decide (t ≤ c.similarity_score))).take k).enum.map
              (fun p => { p.2 with debug := some (p.1 + 1, p.2.similarity_score,
                  p.2.content.take 100 ++ "...".data) })) := by
      unfold retrieve_relevant_chunks
      rw [if_neg h0]
    obtain ⟨hsorted, hranks⟩ :=
      search_sorted_ranks sim s qeOpt (min (k * 2) 20) (truthyIds ids)
    by_cases hempty : (search_similar_chunks sim s qeOpt (min (k * 2) 20)
        (truthyIds ids)).isEmpty = true
    · have hnil : search_similar_chunks sim s qeOpt (min (k * 2) 20)
          (truthyIds ids) = [] := List.isEmpty_iff.mp hempty
      rw [hr, if_pos hempty]
      rw [hnil]
      exact ⟨by simp, List.sorted_nil, by simp, by simp, fun j hj => by simp at hj⟩
    · rw [hr, if_neg hempty]
      set S := search_similar_chunks sim s qeOpt (min (k * 2) 20) (truthyIds ids)
        with hSdef
      set final := (S.filter (fun c => decide (t ≤ c.similarity_score))).take k
        with hfinal
      have hfin_pre : final <+: S := by
        rw [hfinal, filter_eq_takeWhile_score t S hsorted]
        exact (List.take_prefix _ _).trans (List.takeWhile_prefix _)
      have hproj4 := enumFrom_debug_map_proj
        (fun c : SearchResult α => (c.content, c.metadata, c.similarity_score, c.rank))
        (fun x d => rfl) final 0
      have hprojS := enumFrom_debug_map_proj
        (fun c : SearchResult α => c.similarity_score) (fun x d => rfl) final 0
      refine ⟨?_, ?_, ?_, ?_, ?_⟩
      · rw [List.enum]
        exact hproj4
      · have hfs : List.Sorted
            (fun a b : SearchResult α => b.similarity_score ≤ a.similarity_score)
            final :=
          (hsorted.filter _).sublist (List.take_sublist _ _)
        have hp2 : List.Pairwise (fun a b : α => b ≤ a)
            (final.map (fun c => c.similarity_score)) :=
          List.pairwise_map.mpr hfs
        rw [← hprojS] at hp2
        rw [← List.enum] at hp2
        exact List.pairwise_map.mp hp2
      · intro x hx
        have hxs : x.similarity_score ∈
            (final.enum.map (fun p => { p.2 with
              debug := some (p.1 + 1, p.2.similarity_score,
                p.2.content.take 100 ++ "...".data) })).map
              (fun c => c.similarity_score) :=
          List.mem_map.mpr ⟨x, hx, rfl⟩
        rw [List.enum, hprojS] at hxs
        obtain ⟨y, hy, hyx⟩ := List.mem_map.mp hxs
        have hyf : y ∈ S.filter (fun c => decide (t ≤ c.similarity_score)) :=
          List.take_subset _ _ hy
        have := (List.mem_filter.mp hyf).2
        simp only [decide_eq_true_eq] at this
        rw [← hyx]
        exact this
      · rw [List.length_map, List.enum_length, hfinal, List.length_take]
        exact min_le_left _ _
      · intro j hj
        have hjf : j < final.length := by
          rw [List.length_map, List.enum_length] at hj
          exact hj
        have hjS : j < S.length := lt_of_lt_of_le hjf hfin_pre.length_le
        have hget : (final.enum.map (fun p => { p.2 with
            debug := some (p.1 + 1, p.2.similarity_score,
              p.2.content.take 100 ++ "...".data) })).get ⟨j, hj⟩ =
            { final.get ⟨j, hjf⟩ with
              debug := some (j + 1, (final.get ⟨j, hjf⟩).similarity_score,
                (final.get ⟨j, hjf⟩).content.take 100 ++ "...".data) } := by
          simp [List.get_eq_getElem, List.getElem_map, List.getElem_enum]
        have hfS : final.get ⟨j, hjf⟩ = S.get ⟨j, hjS⟩ := by
          simp only [List.get_eq_getElem]
          exact hfin_pre.getElem hjf
        refine ⟨?_, ?_⟩
        · rw [hget]
          show (final.get ⟨j, hjf⟩).rank = j + 1
          rw [hfS]
          exact hranks j hjS
        · rw [hget]
  · decide

theorem retrieve_pipeline_spec_witness :
    (get_collection_stats exStoreC4).total_chunks ≠ 0 ∧
      (retrieve_relevant_chunks (fun _ v => v.headD (0 : ℚ)) exStoreC4
          (some []) none 5 (mkRat 3 10)).length ≤ 5 :=
  ⟨by decide,
    (retrieve_pipeline_spec.1 (fun _ v => v.headD (0 : ℚ)) exStoreC4
        (some []) none 5 (mkRat 3 10) (by decide)).2.2.2.1⟩

/-! ## C5 — deletion removes a document's chunks everywhere -/

/-- Invariants the store operations maintain between the four maps (unique
keys and insertion order come from Python `dict`s; the remaining clauses say
the secondary index and the metadata map agree on which chunks belong to
which document). -/
def WFStore (s : VStore α) : Prop :=
  (s.embeddings.map Prod.fst).Nodup ∧
    s.documents.map Prod.fst = s.embeddings.map Prod.fst ∧
    s.metadatas.map Prod.fst = s.embeddings.map Prod.fst ∧
    (s.document_index.map Prod.fst).Nodup ∧
    (∀ q ∈ s.document_index, q.2.Nodup ∧
      ∀ id ∈ q.2, id ∈ s.embeddings.map Prod.fst ∧
        ∀ p ∈ s.metadatas, p.1 = id → p.2.document_id = q.1) ∧
    (∀ p ∈ s.metadatas, ∃ q ∈ s.document_index, q.1 = p.2.document_id ∧ p.1 ∈ q.2)

lemma lookup_eq_of_mem_of_nodup {l : List (String × β)}
    (hn : (l.map Prod.fst).Nodup) {k : String} {v : β} (hm : (k, v) ∈ l) :
    l.lookup k = some v := by
  induction l with
  | nil => simp at hm
  | cons p rest ih =>
    obtain ⟨a, b⟩ := p
    simp only [List.map_cons, List.nodup_cons] at hn
    rcases List.mem_cons.mp hm with heq | hm'
    · injection heq with h1 h2
      subst h1; subst h2
      simp [List.lookup]
    · have hka : k ≠ a := by
        rintro rfl
        exact hn.1 (List.mem_map.mpr ⟨(k, v), hm', rfl⟩)
      rw [List.lookup, show (k == a) = false by simp [hka]]
      exact ih hn.2 hm'

lemma lookup_filter_none_of_mem {l : List (String × β)} {rm : List String}
    {k : String} (hk : k ∈ rm) :
    (l.filter (fun p => decide (p.1 ∉ rm))).lookup k = none := by
  induction l with
  | nil => rfl
  | cons p rest ih =>
    obtain ⟨a, b⟩ := p
    by_cases ha : a ∈ rm
    · rw [List.filter_cons, if_neg (by simp [ha])]
      exact ih
    · rw [List.filter_cons, if_pos (by simp [ha])]
      have hka : k ≠ a := by rintro rfl; exact ha hk
      rw [List.lookup, show (k == a) = false by simp [hka]]
      exact ih

lemma lookup_filter_ne_none {l : List (String × β)} (k : String) :
    (l.filter (fun p => decide (p.1 ≠ k))).lookup k = none := by
  induction l with
  | nil => rfl
  | cons p rest ih =>
    obtain ⟨a, b⟩ := p
    by_cases ha : a = k
    · rw [List.filter_cons, if_neg (by simp [ha])]
      exact ih
    · rw [List.filter_cons, if_pos (by simp [ha])]
      rw [List.lookup, show (k == a) = false by simp; exact fun e => ha e.symm]
      exact ih

lemma lookup_filter_some {l : List (String × β)} {rm : List String}
    {k : String} {v : β}
    (h : (l.filter (fun p => decide (p.1 ∉ rm))).lookup k = some v) :
    l.lookup k = some v ∧ k ∉ rm := by
  induction l with
  | nil => simp [List.lookup] at h
  | cons p rest ih =>
    obtain ⟨a, b⟩ := p
    by_cases ha : a ∈ rm
    · rw [List.filter_cons, if_neg (by simp [ha])] at h
      obtain ⟨hl, hk⟩ := ih h
      have hka : k ≠ a := by rintro rfl; exact hk ha
      rw [List.lookup, show (k == a) = false by simp [hka]]
      exact ⟨hl, hk⟩
    · rw [List.filter_cons, if_pos (by simp [ha])] at h
      by_cases hka : k = a
      · subst hka
        rw [List.lookup, show (k == k) = true by simp] at h ⊢
        exact ⟨h, by simpa using ha⟩
      · rw [List.lookup, show (k == a) = false by simp [hka]] at h ⊢
        exact ih h

lemma countP_mem_of_nodup :
    ∀ (keys rm : List String), keys.Nodup → rm.Nodup → (∀ k ∈ rm, k ∈ keys) →
      keys.countP (fun k => decide (k ∈ rm)) = rm.length := by
  intro keys
  induction keys with
  | nil =>
    intro rm _ _ hsub
    cases rm with
    | nil => rfl
    | cons r rm' => exact absurd (hsub r (List.mem_cons_self _ _)) (by simp)
  | cons a keys ih =>
    intro rm hkn hrn hsub
    rw [List.nodup_cons] at hkn
    by_cases ha : a ∈ rm
    · rw [List.countP_cons, if_pos (decide_eq_true ha)]
      have herase : keys.countP (fun k => decide (k ∈ rm)) =
          keys.countP (fun k => decide (k ∈ rm.erase a)) := by
        apply List.countP_congr
        intro k hk
        have hka : k ≠ a := by rintro rfl; exact hkn.1 hk
        simp [List.mem_erase_of_ne hka]
      rw [herase, ih (rm.erase a) hkn.2 (hrn.erase a) ?_]
      · rw [List.length_erase_of_mem ha]
        have : rm.length ≠ 0 := by
          intro h0
          rw [List.length_eq_zero.mp h0] at ha
          simp at ha
        omega
      · intro k hk
        have hkrm : k ∈ rm := List.mem_of_mem_erase hk
        have hka : k ≠ a := (hrn.mem_erase_iff.mp hk).1
        rcases List.mem_cons.mp (hsub k hkrm) with rfl | h
        · exact absurd rfl hka
        · exact h
    · rw [List.countP_cons, if_neg (by simp [ha]), Nat.add_zero]
      apply ih rm hkn.2 hrn
      intro k hk
      rcases List.mem_cons.mp (hsub k hk) with rfl | h
      · exact absurd hk ha
      · exact h

lemma length_countP_split (l : List (String × β)) (rm : List String) :
    l.length = l.countP (fun p => decide (p.1 ∉ rm)) +
      l.countP (fun p => decide (p.1 ∈ rm)) := by
  induction l with
  | nil => rfl
  | cons p rest ih =>
    rw [List.length_cons, List.countP_cons, List.countP_cons, ih]
    by_cases hp : p.1 ∈ rm
    · rw [if_neg (by simp [hp]), if_pos (decide_eq_true hp)]
      omega
    · rw [if_pos (by simp [hp]), if_neg (by simp [hp])]
      omega

lemma length_filter_not_mem {l : List (String × β)} {rm : List String}
    (hkeys : (l.map Prod.fst).Nodup) (hrm : rm.Nodup)
    (hsub : ∀ k ∈ rm, k ∈ l.map Prod.fst) :
    l.length = (l.filter (fun p => decide (p.1 ∉ rm))).length + rm.length := by
  rw [← List.countP_eq_length_filter]
  rw [length_countP_split l rm]
  congr 1
  have hmap : l.countP (fun p => decide (p.1 ∈ rm)) =
      (l.map Prod.fst).countP (fun k => decide (k ∈ rm)) := by
    rw [List.countP_map]
    rfl
  rw [hmap, countP_mem_of_nodup _ rm hkeys hrm hsub]

lemma mem_search_metadata {α : Type} [LinearOrderedField α]
    (sim : List α → List α → α) (s : VStore α) (qeOpt : Option (List α))
    (n : Nat) (dids : Option (List String)) (r : SearchResult α)
    (hr : r ∈ search_similar_chunks sim s qeOpt n dids) :
    ∃ id, s.metadatas.lookup id = some r.metadata := by
  by_cases he : s.embeddings.isEmpty = true
  · unfold search_similar_chunks at hr
    rw [if_pos he] at hr
    simp at hr
  · unfold search_similar_chunks at hr
    rw [if_neg he] at hr
    cases qeOpt with
    | none => simp at hr
    | some qe =>
      dsimp only at hr
      by_cases hc : (candidateIds s dids).isEmpty = true
      · rw [if_pos hc] at hr
        simp at hr
      · rw [if_neg hc] at hr
        cases hfr : formatResults s
            (List.take n (List.insertionSort (fun x y => y.2 ≤ x.2)
              (similarityList sim s qe (candidateIds s dids)))) 0 with
        | none =>
          rw [hfr] at hr
          simp at hr
        | some rs =>
          rw [hfr] at hr
          exact formatResults_metadata s _ 0 rs hfr r hr

/-- C5: for a document with indexed chunks, `delete_document_chunks` removes
every one of its chunk ids from the embeddings, documents and metadatas
maps, removes the secondary-index entry, and returns `True`; afterwards
`total_chunks` has decreased by exactly that document's chunk count, a
search restricted to the document returns no chunks, and no search result at
all carries the document's id in its metadata.  For a document with no
indexed chunks it returns `False` and leaves the store unchanged. -/
theorem delete_document_chunks_spec {α : Type} [LinearOrderedField α]
    (s : VStore α) (doc : String) (hwf : WFStore s) :
    (s.document_index.lookup doc = none → delete_document_chunks s doc = (false, s)) ∧
      ∀ ids, s.document_index.lookup doc = some ids →
        (delete_document_chunks s doc).1 = true ∧
          (∀ id ∈ ids,
            (delete_document_chunks s doc).2.embeddings.lookup id = none ∧
              (delete_document_chunks s doc).2.documents.lookup id = none ∧
              (delete_document_chunks s doc).2.metadatas.lookup id = none) ∧
          (delete_document_chunks s doc).2.document_index.lookup doc = none ∧
          (get_collection_stats s).total_chunks =
            (get_collection_stats (delete_document_chunks s doc).2).total_chunks +
              ids.length ∧
          (∀ (sim : List α → List α → α) (qeOpt : Option (List α)) (n : Nat),
            search_similar_chunks sim (delete_document_chunks s doc).2 qeOpt n
              (some [doc]) = []) ∧
          (∀ (sim : List α → List α → α) (qeOpt : Option (List α)) (n : Nat)
              (dids : Option (List String)) (r : SearchResult α),
            r ∈ search_similar_chunks sim (delete_document_chunks s doc).2 qeOpt n dids →
              r.metadata.document_id ≠ doc) := by
  obtain ⟨w1, w2, w3, w4, w5, w6⟩ := hwf
  constructor
  · intro hnone
    unfold delete_document_chunks
    rw [hnone]
  · intro ids hlk
    have hdel : delete_document_chunks s doc =
        (true,
          { embeddings := s.embeddings.filter (fun p => decide (p.1 ∉ ids))
            documents := s.documents.filter (fun p => decide (p.1 ∉ ids))
            metadatas := s.metadatas.filter (fun p => decide (p.1 ∉ ids))
            document_index := s.document_index.filter (fun p => decide (p.1 ≠ doc)) }) := by
      unfold delete_document_chunks
      rw [hlk]
    obtain ⟨hidn, hidsub⟩ := w5 (doc, ids) (mem_of_lookup_eq_some hlk)
    have hindex_none : (delete_document_chunks s doc).2.document_index.lookup doc = none := by
      rw [hdel]
      exact lookup_filter_ne_none doc
    refine ⟨by rw [hdel], ?_, hindex_none, ?_, ?_, ?_⟩
    · intro id hid
      rw [hdel]
      exact ⟨lookup_filter_none_of_mem hid, lookup_filter_none_of_mem hid,
        lookup_filter_none_of_mem hid⟩
    · rw [hdel]
      show s.embeddings.length = (s.embeddings.filter _).length + ids.length
      exact length_filter_not_mem w1 hidn (fun k hk => (hidsub k hk).1)
    · intro sim qeOpt n
      have hcands : candidateIds (delete_document_chunks s doc).2 (some [doc]) = [] := by
        simp [candidateIds, hindex_none]
      by_cases he : (delete_document_chunks s doc).2.embeddings.isEmpty = true
      · unfold search_similar_chunks
        rw [if_pos he]
      · unfold search_similar_chunks
        rw [if_neg he]
        cases qeOpt with
        | none => rfl
        | some qe =>
          dsimp only
          rw [hcands]
          rfl
    · intro sim qeOpt n dids r hr
      intro hdoc
      obtain ⟨id, hmid⟩ := mem_search_metadata sim _ qeOpt n dids r hr
      rw [hdel] at hmid
      obtain ⟨hmorig, hnotin⟩ := lookup_filter_some hmid
      obtain ⟨q, hq, hq1, hqid⟩ := w6 (id, r.metadata) (mem_of_lookup_eq_some hmorig)
      have : s.document_index.lookup q.1 = some q.2 := by
        obtain ⟨qa, qb⟩ := q
        exact lookup_eq_of_mem_of_nodup w4 hq
      rw [hq1, hdoc, hlk] at this
      injection this with hids
      rw [← hids] at hqid
      exact hnotin hqid

theorem delete_document_chunks_spec_witness :
    WFStore exStoreC4 ∧ (delete_document_chunks exStoreC4 "D").1 = true :=
  ⟨by unfold WFStore; decide,
    ((delete_document_chunks_spec exStoreC4 "D" (by unfold WFStore; decide)).2
      ["c1", "c2", "c3", "c4"] rfl).1⟩

end PythonLaw
